import Mathlib

/-!
Verification development for the shared-budgeting application.

The repository ships the React frontend (quick-add transaction modal, file
upload modals, the API service layer) but not the backend statement-ingestion
module the changelog references; the ingestion pipeline, bank-format detector,
extractors and numeric/date normalizers below are therefore modelled from the
specification document, while the frontend components are embedded from their
JavaScript source.
-/

namespace Budget

/-! ## Characters and digit strings -/

/-- A decimal digit character, decided by its code point. -/
def isDigitCh (c : Char) : Bool := 48 ≤ c.toNat && c.toNat ≤ 57

/-- Numeric value of a digit character. -/
def digitVal (c : Char) : ℕ := c.toNat - 48

/-- The character for a single digit (values above nine clamp to the last digit). -/
def digitCh : ℕ → Char
  | 0 => '0'
  | 1 => '1'
  | 2 => '2'
  | 3 => '3'
  | 4 => '4'
  | 5 => '5'
  | 6 => '6'
  | 7 => '7'
  | 8 => '8'
  | _ => '9'

/-- Value of a most-significant-first digit string. -/
def digitsVal (cs : List Char) : ℕ := cs.foldl (fun a c => 10 * a + digitVal c) 0

/-- Decimal digit string of a natural number, most significant digit first. -/
def natDigits (n : ℕ) : List Char :=
  if n < 10 then [digitCh n] else natDigits (n / 10) ++ [digitCh (n % 10)]
termination_by n
decreasing_by exact Nat.div_lt_self (by omega) (by omega)

theorem digitVal_digitCh (n : ℕ) (h : n < 10) : digitVal (digitCh n) = n := by
  interval_cases n <;> decide

theorem isDigitCh_digitCh (n : ℕ) : isDigitCh (digitCh n) = true := by
  unfold digitCh
  split <;> decide

theorem digitsVal_append_singleton (cs : List Char) (c : Char) :
    digitsVal (cs ++ [c]) = 10 * digitsVal cs + digitVal c := by
  simp [digitsVal, List.foldl_append]

theorem digitsVal_natDigits (n : ℕ) : digitsVal (natDigits n) = n := by
  induction n using Nat.strong_induction_on with
  | _ n ih =>
    rw [natDigits]
    by_cases h : n < 10
    · simp [h, digitsVal, digitVal_digitCh n h]
    · simp only [h, if_false]
      rw [digitsVal_append_singleton, ih (n / 10) (Nat.div_lt_self (by omega) (by omega)),
        digitVal_digitCh (n % 10) (Nat.mod_lt _ (by omega))]
      omega

theorem natDigits_ne_nil (n : ℕ) : natDigits n ≠ [] := by
  rw [natDigits]
  split <;> simp

theorem natDigits_all_digits (n : ℕ) : ∀ c ∈ natDigits n, isDigitCh c = true := by
  induction n using Nat.strong_induction_on with
  | _ n ih =>
    rw [natDigits]
    by_cases h : n < 10
    · simp [h, isDigitCh_digitCh]
    · simp only [h, if_false]
      intro c hc
      rcases List.mem_append.mp hc with h1 | h2
      · exact ih (n / 10) (Nat.div_lt_self (by omega) (by omega)) c h1
      · simp only [List.mem_singleton] at h2
        subst h2
        exact isDigitCh_digitCh _

theorem natDigits_length_of_lt (n : ℕ) (h : n < 100) : (natDigits n).length ≤ 2 := by
  rw [natDigits]
  by_cases h10 : n < 10
  · simp [h10]
  · simp only [h10, if_false]
    rw [natDigits]
    have : n / 10 < 10 := by omega
    simp [this]

theorem natDigits_length_four (n : ℕ) (h1 : 1000 ≤ n) (h2 : n < 10000) :
    (natDigits n).length = 4 := by
  rw [natDigits]
  have hn : ¬ n < 10 := by omega
  simp only [hn, if_false, List.length_append, List.length_singleton]
  rw [natDigits]
  have hn1 : ¬ n / 10 < 10 := by omega
  simp only [hn1, if_false, List.length_append, List.length_singleton]
  rw [natDigits]
  have hn2 : ¬ n / 10 / 10 < 10 := by omega
  simp only [hn2, if_false, List.length_append, List.length_singleton]
  rw [natDigits]
  have hn3 : n / 10 / 10 / 10 < 10 := by omega
  simp [hn3]

/-- A digit character is distinct from the punctuation the amount and date
parsers dispatch on. -/
theorem isDigitCh_ne (c : Char) (h : isDigitCh c = true) :
    c ≠ ',' ∧ c ≠ '.' ∧ c ≠ '$' ∧ c ≠ ' ' ∧ c ≠ '(' ∧ c ≠ ')' ∧ c ≠ '-' ∧
    c ≠ '/' ∧ c ≠ 'D' := by
  simp only [isDigitCh, Bool.and_eq_true, decide_eq_true_eq] at h
  refine ⟨?_, ?_, ?_, ?_, ?_, ?_, ?_, ?_, ?_⟩ <;>
    (intro hc; subst hc; simp at h)

/-! ## Amount parsing

Modelled from the spec: the Numeric Normalizer contract
`parseAmount(raw) -> Decimal | ParseError` (spec section 4.5). Currency
symbols, whitespace and a literal `CAD` suffix are stripped; a comma is a
thousands separator exactly when followed by three digits whose run ends at a
decimal point, another group separator, or the end of the string, and is a
decimal separator otherwise; parenthesized amounts denote negative values. -/

/-- Remove currency symbols and whitespace. -/
def stripCurrencyChars (cs : List Char) : List Char :=
  cs.filter (fun c => !(c = '$' || c = ' '))

/-- Drop a literal trailing currency suffix. -/
def dropSuffixCAD (cs : List Char) : List Char :=
  if (cs.reverse).take 3 = ['D', 'A', 'C'] then ((cs.reverse).drop 3).reverse else cs

/-- Whether the comma starting a tail is a thousands separator: exactly three
digits follow before a decimal point, a further group separator, or the end. -/
def commaIsGroup (rest : List Char) : Bool :=
  match rest with
  | d1 :: d2 :: d3 :: tail =>
      isDigitCh d1 && isDigitCh d2 && isDigitCh d3 &&
        (tail = [] || tail.head? = some '.' || tail.head? = some ',')
  | _ => false

/-- Delete thousands-separator commas and rewrite a decimal-separator comma
into a decimal point. -/
def classifyCommas : List Char → List Char
  | [] => []
  | c :: rest =>
      if c = ',' then
        if commaIsGroup rest then classifyCommas rest else '.' :: classifyCommas rest
      else c :: classifyCommas rest

/-- Split at the first decimal point: integer digits, fractional digits. -/
def splitDot : List Char → List Char × List Char
  | [] => ([], [])
  | c :: rest =>
      if c = '.' then ([], rest)
      else
        let p := splitDot rest
        (c :: p.1, p.2)

/-- Parse an unsigned decimal literal (digits, optionally a point and more
digits) into a rational. -/
def parseUnsigned (cs : List Char) : Option ℚ :=
  let ip := (splitDot cs).1
  let fp := (splitDot cs).2
  if ip ≠ [] && ip.all isDigitCh && fp.all isDigitCh then
    some ((digitsVal ip : ℚ) + (digitsVal fp : ℚ) / (10 : ℚ) ^ fp.length)
  else none

/-- Resolve the sign markers: a parenthesized amount or a leading minus is
negative. -/
def parseSigned (cs : List Char) : Option ℚ :=
  if cs.head? = some '(' && cs.getLast? = some ')' then
    (parseUnsigned (classifyCommas ((cs.drop 1).dropLast))).map (fun q => -q)
  else if cs.head? = some '-' then
    (parseUnsigned (classifyCommas (cs.drop 1))).map (fun q => -q)
  else parseUnsigned (classifyCommas cs)

/-- Modelled from the spec: `parseAmount` of the Numeric Normalizer. -/
def parseAmount (s : String) : Option ℚ :=
  parseSigned (dropSuffixCAD (stripCurrencyChars s.data))

/-! ## Locale formatters

The inverse direction used by the round-trip property: render a number of
cents in each supported locale format. -/

/-- Digit groups of three, splitting from the right (the first group keeps the
remainder). -/
def chunk3 (ds : List Char) : List (List Char) :=
  if h : ds.length ≤ 3 then [ds]
  else
    let k := if ds.length % 3 = 0 then 3 else ds.length % 3
    ds.take k :: chunk3 (ds.drop k)
termination_by ds.length
decreasing_by
  simp only [List.length_drop]
  split <;> omega

/-- Concatenate groups, preceding each by a separator comma. -/
def commaTail : List (List Char) → List Char
  | [] => []
  | g :: rest => ',' :: (g ++ commaTail rest)

/-- Join digit groups with separator commas between them. -/
def joinGroups : List (List Char) → List Char
  | [] => []
  | g :: rest => g ++ commaTail rest

/-- Comma-grouped rendering of a digit string. -/
def group3 (ds : List Char) : List Char := joinGroups (chunk3 ds)

/-- Two-digit rendering of a value below one hundred. -/
def twoDigits (n : ℕ) : List Char := [digitCh (n / 10), digitCh (n % 10)]

/-- Currency-suffixed comma-grouped format, e.g. a value of 123456 cents
renders as the symbol, the grouped dollars, a point, the cents and the
currency suffix. -/
def formatCAD (cents : ℕ) : String :=
  ⟨'$' :: (group3 (natDigits (cents / 100)) ++
    '.' :: (twoDigits (cents % 100) ++ ' ' :: ['C', 'A', 'D']))⟩

/-- Parenthesized-negative format for a magnitude in cents. -/
def formatParen (cents : ℕ) : String :=
  ⟨'(' :: (natDigits (cents / 100) ++ '.' :: (twoDigits (cents % 100) ++ [')']))⟩

/-- Comma-as-decimal-separator format for a value in cents. -/
def formatCommaDec (cents : ℕ) : String :=
  ⟨natDigits (cents / 100) ++ ',' :: twoDigits (cents % 100)⟩

/-! ## Round-trip lemmas for amount parsing -/

theorem stripCurrencyChars_eq_self (cs : List Char)
    (h : ∀ c ∈ cs, c ≠ '$' ∧ c ≠ ' ') : stripCurrencyChars cs = cs := by
  rw [stripCurrencyChars, List.filter_eq_self]
  intro c hc
  simp [(h c hc).1, (h c hc).2]

theorem chunk3_join_aux (n : ℕ) : ∀ ds : List Char, ds.length ≤ n →
    (chunk3 ds).flatten = ds := by
  induction n with
  | zero =>
    intro ds h
    have : ds = [] := List.length_eq_zero.mp (Nat.le_zero.mp h)
    subst this
    rw [chunk3]
    simp
  | succ n ih =>
    intro ds h
    rw [chunk3]
    by_cases h3 : ds.length ≤ 3
    · simp [h3]
    · simp only [h3, dite_false, List.flatten_cons]
      rw [ih]
      · exact List.take_append_drop _ ds
      · simp only [List.length_drop]
        split <;> omega

theorem chunk3_join (ds : List Char) : (chunk3 ds).flatten = ds :=
  chunk3_join_aux ds.length ds le_rfl

theorem chunk3_all_three_aux (n : ℕ) : ∀ ds : List Char, ds.length ≤ n →
    ds.length % 3 = 0 → ds ≠ [] → ∀ g ∈ chunk3 ds, g.length = 3 := by
  induction n with
  | zero =>
    intro ds h _ hne
    exact absurd (List.length_eq_zero.mp (Nat.le_zero.mp h)) hne
  | succ n ih =>
    intro ds h hmod hne
    rw [chunk3]
    by_cases h3 : ds.length ≤ 3
    · have : ds.length = 3 := by
        have : 0 < ds.length := List.length_pos.mpr hne
        omega
      simp only [h3, dite_true, List.mem_singleton]
      intro g hg
      subst hg
      exact this
    · simp only [h3, dite_false, hmod, ite_true, List.mem_cons]
      intro g hg
      rcases hg with hg | hg
      · subst hg
        simp only [List.length_take]
        omega
      · refine ih (ds.drop 3) ?_ ?_ ?_ g hg
        · simp only [List.length_drop]; omega
        · simp only [List.length_drop]; omega
        · have : (ds.drop 3).length ≠ 0 := by
            simp only [List.length_drop]; omega
          intro hc
          exact this (by simp [hc])

theorem chunk3_structure (ds : List Char) (hne : ds ≠ []) :
    ∃ g0 gs, chunk3 ds = g0 :: gs ∧ g0 ≠ [] ∧ ∀ g ∈ gs, g.length = 3 := by
  rw [chunk3]
  by_cases h3 : ds.length ≤ 3
  · exact ⟨ds, [], by simp [h3], hne, by simp⟩
  · simp only [h3, dite_false]
    set k := if ds.length % 3 = 0 then 3 else ds.length % 3 with hk
    have hk1 : 1 ≤ k := by
      rw [hk]; split <;> omega
    have hk3 : k ≤ 3 := by
      rw [hk]; split <;> omega
    refine ⟨ds.take k, chunk3 (ds.drop k), rfl, ?_, ?_⟩
    · have : (ds.take k).length ≠ 0 := by
        simp only [List.length_take]; omega
      intro hc
      exact this (by simp [hc])
    · refine chunk3_all_three_aux (ds.drop k).length _ le_rfl ?_ ?_
      · simp only [List.length_drop]
        rw [hk]; split <;> omega
      · have : (ds.drop k).length ≠ 0 := by
          simp only [List.length_drop]; omega
        intro hc
        exact this (by simp [hc])

theorem mem_commaTail {c : Char} : ∀ gs : List (List Char), c ∈ commaTail gs →
    c = ',' ∨ ∃ g ∈ gs, c ∈ g := by
  intro gs
  induction gs with
  | nil => simp [commaTail]
  | cons g rest ih =>
    intro hc
    rw [commaTail] at hc
    rcases List.mem_cons.mp hc with hc | hc
    · exact Or.inl hc
    · rcases List.mem_append.mp hc with hc | hc
      · exact Or.inr ⟨g, List.mem_cons_self _ _, hc⟩
      · rcases ih hc with hc | ⟨g2, hg2, hcg⟩
        · exact Or.inl hc
        · exact Or.inr ⟨g2, List.mem_cons_of_mem _ hg2, hcg⟩

theorem mem_group3 {c : Char} (ds : List Char) (h : c ∈ group3 ds) :
    c ∈ ds ∨ c = ',' := by
  rw [group3, joinGroups.eq_def] at h
  split at h
  · simp at h
  · next g rest heq =>
    have hjoin : c ∈ g ∨ c ∈ commaTail rest := List.mem_append.mp h
    have sub : ∀ x ∈ g :: rest, ∀ d ∈ x, d ∈ ds := by
      intro x hx d hd
      rw [← chunk3_join ds, heq]
      exact List.mem_flatten.mpr ⟨x, hx, hd⟩
    rcases hjoin with hc | hc
    · exact Or.inl (sub g (List.mem_cons_self _ _) c hc)
    · rcases mem_commaTail rest hc with hc | ⟨g2, hg2, hcg⟩
      · exact Or.inr hc
      · exact Or.inl (sub g2 (List.mem_cons_of_mem _ hg2) c hcg)

theorem classifyCommas_append_of_no_comma (xs ys : List Char)
    (h : ∀ c ∈ xs, c ≠ ',') :
    classifyCommas (xs ++ ys) = xs ++ classifyCommas ys := by
  induction xs with
  | nil => simp
  | cons c rest ih =>
    rw [List.cons_append, classifyCommas]
    have hc : c ≠ ',' := h c (List.mem_cons_self _ _)
    simp only [hc, ite_false]
    rw [ih (fun d hd => h d (List.mem_cons_of_mem _ hd))]
    rfl

theorem classifyCommas_eq_self (xs : List Char) (h : ∀ c ∈ xs, c ≠ ',') :
    classifyCommas xs = xs := by
  have h2 := classifyCommas_append_of_no_comma xs [] h
  have h3 : classifyCommas ([] : List Char) = [] := rfl
  rw [h3, List.append_nil] at h2
  exact h2

theorem classifyCommas_commaTail : ∀ (gs : List (List Char)) (t : List Char),
    (∀ g ∈ gs, g.length = 3 ∧ ∀ c ∈ g, isDigitCh c = true) →
    (t = [] ∨ t.head? = some '.') →
    classifyCommas (commaTail gs ++ t) = gs.flatten ++ classifyCommas t := by
  intro gs
  induction gs with
  | nil => simp [commaTail]
  | cons g rest ih =>
    intro t hg ht
    obtain ⟨hlen, hdig⟩ := hg g (List.mem_cons_self _ _)
    obtain ⟨a, b, c, rfl⟩ := List.length_eq_three.mp hlen
    rw [commaTail, List.cons_append, classifyCommas]
    simp only [ite_true]
    have hgroup : commaIsGroup (([a, b, c] ++ commaTail rest) ++ t) = true := by
      have ha := hdig a (by simp)
      have hb := hdig b (by simp)
      have hc := hdig c (by simp)
      show commaIsGroup (a :: b :: c :: (commaTail rest ++ t)) = true
      rw [commaIsGroup]
      simp only [ha, hb, hc, Bool.true_and]
      cases rest with
      | cons g2 rest2 => simp [commaTail]
      | nil =>
        rcases ht with ht | ht
        · simp [commaTail, ht]
        · simp [commaTail, ht]
    rw [List.append_assoc] at hgroup ⊢
    simp only [hgroup, ite_true]
    rw [classifyCommas_append_of_no_comma [a, b, c] (commaTail rest ++ t)
      (fun d hd => (isDigitCh_ne d (hdig d hd)).1)]
    rw [ih t (fun g2 hg2 => hg (g2 : List Char) (List.mem_cons_of_mem _ hg2)) ht]
    simp [List.flatten]

theorem classifyCommas_group3 (ids fds : List Char) (h0 : ids ≠ [])
    (hd : ∀ c ∈ ids, isDigitCh c = true) (hf : ∀ c ∈ fds, isDigitCh c = true) :
    classifyCommas (group3 ids ++ '.' :: fds) = ids ++ '.' :: fds := by
  obtain ⟨g0, gs, heq, hg0, h3⟩ := chunk3_structure ids h0
  have sub : ∀ x ∈ g0 :: gs, ∀ d ∈ x, d ∈ ids := by
    intro x hx d hdx
    rw [← chunk3_join ids, heq]
    exact List.mem_flatten.mpr ⟨x, hx, hdx⟩
  have hgs : ∀ g ∈ gs, g.length = 3 ∧ ∀ c ∈ g, isDigitCh c = true := by
    intro g hg
    exact ⟨h3 g hg, fun c hc => hd c (sub g (List.mem_cons_of_mem _ hg) c hc)⟩
  rw [group3, heq, joinGroups, List.append_assoc,
    classifyCommas_append_of_no_comma g0 (commaTail gs ++ '.' :: fds)
      (fun d hdg => (isDigitCh_ne d (hd d (sub g0 (List.mem_cons_self _ _) d hdg))).1),
    classifyCommas_commaTail gs ('.' :: fds) hgs (Or.inr rfl)]
  rw [classifyCommas]
  rw [if_neg (show ¬ ('.' : Char) = ',' by decide)]
  rw [classifyCommas_eq_self fds (fun d hdf => (isDigitCh_ne d (hf d hdf)).1)]
  have : g0 ++ (gs.flatten ++ '.' :: fds) = (g0 ++ gs.flatten) ++ '.' :: fds := by
    rw [List.append_assoc]
  rw [this]
  have hjoin : g0 ++ gs.flatten = ids := by
    have := chunk3_join ids
    rw [heq] at this
    simpa [List.flatten] using this
  rw [hjoin]

theorem splitDot_append (xs ys : List Char) (h : ∀ c ∈ xs, c ≠ '.') :
    splitDot (xs ++ '.' :: ys) = (xs, ys) := by
  induction xs with
  | nil => simp [splitDot]
  | cons c rest ih =>
    rw [List.cons_append, splitDot]
    have hc : c ≠ '.' := h c (List.mem_cons_self _ _)
    simp only [hc, ite_false]
    rw [ih (fun d hd => h d (List.mem_cons_of_mem _ hd))]

theorem parseUnsigned_format (ids fds : List Char) (h0 : ids ≠ [])
    (hd : ∀ c ∈ ids, isDigitCh c = true) (hf : ∀ c ∈ fds, isDigitCh c = true) :
    parseUnsigned (ids ++ '.' :: fds) =
      some ((digitsVal ids : ℚ) + (digitsVal fds : ℚ) / (10 : ℚ) ^ fds.length) := by
  have hsplit := splitDot_append ids fds (fun c hc => (isDigitCh_ne c (hd c hc)).2.1)
  rw [parseUnsigned, hsplit]
  have hc1 : ids.all isDigitCh = true := List.all_eq_true.mpr hd
  have hc2 : fds.all isDigitCh = true := List.all_eq_true.mpr hf
  simp [h0, hc1, hc2]

theorem twoDigits_all_digits (m : ℕ) : ∀ c ∈ twoDigits m, isDigitCh c = true := by
  intro c hc
  simp only [twoDigits, List.mem_cons, List.mem_singleton, List.not_mem_nil,
    or_false] at hc
  rcases hc with rfl | rfl <;> exact isDigitCh_digitCh _

theorem digitsVal_twoDigits (m : ℕ) (h : m < 100) : digitsVal (twoDigits m) = m := by
  simp only [twoDigits, digitsVal, List.foldl_cons, List.foldl_nil,
    digitVal_digitCh (m / 10) (by omega), digitVal_digitCh (m % 10) (by omega)]
  omega

theorem group3_cons (ds : List Char) (hne : ds ≠ []) :
    ∃ c rest, group3 ds = c :: rest ∧ c ∈ ds := by
  obtain ⟨g0, gs, heq, hg0, _⟩ := chunk3_structure ds hne
  obtain ⟨c, g0tail, rfl⟩ := List.exists_cons_of_ne_nil hg0
  refine ⟨c, g0tail ++ commaTail gs, ?_, ?_⟩
  · rw [group3, heq, joinGroups, List.cons_append]
  · rw [← chunk3_join ds, heq]
    exact List.mem_flatten.mpr ⟨c :: g0tail, List.mem_cons_self _ _,
      List.mem_cons_self _ _⟩

theorem cents_decompose (cents : ℕ) :
    ((cents / 100 : ℕ) : ℚ) + ((cents % 100 : ℕ) : ℚ) / (10 : ℚ) ^ (2 : ℕ) =
      (cents : ℚ) / 100 := by
  have h2 : (cents : ℚ) = ((cents / 100 : ℕ) : ℚ) * 100 + ((cents % 100 : ℕ) : ℚ) := by
    exact_mod_cast (by omega : cents = cents / 100 * 100 + cents % 100)
  rw [h2]
  norm_num
  ring

theorem parseSigned_digit_head (cs : List Char) (c : Char) (hc : cs.head? = some c)
    (hd : isDigitCh c = true) : parseSigned cs = parseUnsigned (classifyCommas cs) := by
  have h1 : cs.head? ≠ some '(' := by
    rw [hc]
    intro h
    injection h with h
    exact (isDigitCh_ne c hd).2.2.2.2.1 h
  have h2 : cs.head? ≠ some '-' := by
    rw [hc]
    intro h
    injection h with h
    exact (isDigitCh_ne c hd).2.2.2.2.2.2.1 h
  simp [parseSigned, h1, h2]

theorem dropSuffixCAD_concat_CAD (X : List Char) :
    dropSuffixCAD (X ++ ['C', 'A', 'D']) = X := by
  have hrev : (X ++ ['C', 'A', 'D']).reverse = 'D' :: 'A' :: 'C' :: X.reverse := by
    simp
  rw [dropSuffixCAD, hrev]
  simp [List.take_succ_cons, List.drop_succ_cons]

theorem dropSuffixCAD_of_getLast (cs : List Char) (c : Char)
    (h : cs.getLast? = some c) (hne : c ≠ 'D') : dropSuffixCAD cs = cs := by
  rw [dropSuffixCAD, if_neg]
  intro hc
  rw [← List.head?_reverse] at h
  cases hr : cs.reverse with
  | nil => rw [hr] at h; simp at h
  | cons a t =>
    rw [hr] at h hc
    simp only [List.head?_cons, Option.some.injEq] at h
    simp only [List.take_succ_cons, List.cons.injEq] at hc
    exact hne (h ▸ hc.1)

/-- Every character of the currency-suffixed comma-grouped rendering before
the suffix survives symbol stripping. -/
theorem strip_body (B : List Char) (h : ∀ c ∈ B, c ≠ '$' ∧ c ≠ ' ') :
    ∀ X : List Char,
      stripCurrencyChars ('$' :: (B ++ X)) = B ++ stripCurrencyChars X := by
  intro X
  show List.filter _ ('$' :: (B ++ X)) = _
  rw [List.filter_cons]
  simp only [decide_eq_true_eq, Bool.or_self, Bool.not_true, reduceCtorEq]
  rw [if_neg (by simp)]
  rw [List.filter_append]
  rw [show List.filter (fun c => !(c = '$' || c = ' ')) B = B from
    stripCurrencyChars_eq_self B h]
  rfl

theorem parseAmount_formatCAD (cents : ℕ) :
    parseAmount (formatCAD cents) = some ((cents : ℚ) / 100) := by
  have hIdig : ∀ c ∈ natDigits (cents / 100), isDigitCh c = true :=
    natDigits_all_digits _
  have hTdig : ∀ c ∈ twoDigits (cents % 100), isDigitCh c = true :=
    twoDigits_all_digits _
  have hIne : natDigits (cents / 100) ≠ [] := natDigits_ne_nil _
  have hGmem : ∀ c ∈ group3 (natDigits (cents / 100)), c ≠ '$' ∧ c ≠ ' ' := by
    intro c hc
    rcases mem_group3 _ hc with hc | rfl
    · exact ⟨(isDigitCh_ne c (hIdig c hc)).2.2.1, (isDigitCh_ne c (hIdig c hc)).2.2.2.1⟩
    · exact ⟨by decide, by decide⟩
  have hstrip : stripCurrencyChars (formatCAD cents).data =
      (group3 (natDigits (cents / 100)) ++ '.' :: twoDigits (cents % 100)) ++
        ['C', 'A', 'D'] := by
    show stripCurrencyChars ('$' :: ((group3 (natDigits (cents / 100)) ++
      '.' :: (twoDigits (cents % 100) ++ ' ' :: ['C', 'A', 'D'])))) = _
    rw [strip_body _ hGmem ('.' :: (twoDigits (cents % 100) ++ ' ' :: ['C', 'A', 'D']))]
    have : stripCurrencyChars ('.' :: (twoDigits (cents % 100) ++ ' ' :: ['C', 'A', 'D'])) =
        '.' :: (twoDigits (cents % 100) ++ ['C', 'A', 'D']) := by
      show List.filter _ _ = _
      rw [List.filter_cons, if_pos (by simp), List.filter_append,
        show List.filter (fun c => !(c = '$' || c = ' ')) (twoDigits (cents % 100)) =
          twoDigits (cents % 100) from stripCurrencyChars_eq_self _
            (fun c hc => ⟨(isDigitCh_ne c (hTdig c hc)).2.2.1,
              (isDigitCh_ne c (hTdig c hc)).2.2.2.1⟩)]
      rfl
    rw [this]
    simp
  rw [parseAmount, hstrip, dropSuffixCAD_concat_CAD]
  obtain ⟨c, grest, hgeq, hcmem⟩ := group3_cons (natDigits (cents / 100)) hIne
  have hhead : (group3 (natDigits (cents / 100)) ++
      '.' :: twoDigits (cents % 100)).head? = some c := by
    rw [hgeq, List.cons_append, List.head?_cons]
  rw [parseSigned_digit_head _ c hhead (hIdig c hcmem)]
  rw [classifyCommas_group3 _ _ hIne hIdig hTdig]
  rw [parseUnsigned_format _ _ hIne hIdig hTdig]
  rw [digitsVal_natDigits, digitsVal_twoDigits _ (by omega)]
  rw [show (twoDigits (cents % 100)).length = 2 from rfl]
  rw [cents_decompose]

theorem parseAmount_formatParen (cents : ℕ) :
    parseAmount (formatParen cents) = some (-((cents : ℚ) / 100)) := by
  have hIdig : ∀ c ∈ natDigits (cents / 100), isDigitCh c = true :=
    natDigits_all_digits _
  have hTdig : ∀ c ∈ twoDigits (cents % 100), isDigitCh c = true :=
    twoDigits_all_digits _
  have hIne : natDigits (cents / 100) ≠ [] := natDigits_ne_nil _
  have hshape : (formatParen cents).data =
      '(' :: ((natDigits (cents / 100) ++ '.' :: twoDigits (cents % 100)) ++ [')']) := by
    show '(' :: (natDigits (cents / 100) ++ '.' :: (twoDigits (cents % 100) ++ [')'])) = _
    simp
  have hkeep : ∀ c ∈ (formatParen cents).data, c ≠ '$' ∧ c ≠ ' ' := by
    rw [hshape]
    intro c hc
    rcases List.mem_cons.mp hc with rfl | hc
    · exact ⟨by decide, by decide⟩
    · rcases List.mem_append.mp hc with hc | hc
      · rcases List.mem_append.mp hc with hc | hc
        · exact ⟨(isDigitCh_ne c (hIdig c hc)).2.2.1,
            (isDigitCh_ne c (hIdig c hc)).2.2.2.1⟩
        · rcases List.mem_cons.mp hc with rfl | hc
          · exact ⟨by decide, by decide⟩
          · exact ⟨(isDigitCh_ne c (hTdig c hc)).2.2.1,
              (isDigitCh_ne c (hTdig c hc)).2.2.2.1⟩
      · simp only [List.mem_singleton] at hc
        subst hc
        exact ⟨by decide, by decide⟩
  rw [parseAmount, stripCurrencyChars_eq_self _ hkeep, hshape]
  have hlast : ('(' :: ((natDigits (cents / 100) ++ '.' :: twoDigits (cents % 100)) ++
      [')'])).getLast? = some ')' := by
    rw [show ('(' :: ((natDigits (cents / 100) ++ '.' :: twoDigits (cents % 100)) ++
      [')'])) = (('(' :: (natDigits (cents / 100) ++ '.' :: twoDigits (cents % 100))) ++
      [')']) from by simp]
    exact List.getLast?_concat _
  rw [dropSuffixCAD_of_getLast _ ')' hlast (by decide)]
  rw [parseSigned]
  rw [if_pos]
  · simp only [List.drop_succ_cons, List.drop_zero, List.dropLast_concat]
    rw [classifyCommas_eq_self _ (fun c hc => by
      rcases List.mem_append.mp hc with hc | hc
      · exact (isDigitCh_ne c (hIdig c hc)).1
      · rcases List.mem_cons.mp hc with rfl | hc
        · decide
        · exact (isDigitCh_ne c (hTdig c hc)).1)]
    rw [parseUnsigned_format _ _ hIne hIdig hTdig]
    rw [digitsVal_natDigits, digitsVal_twoDigits _ (by omega)]
    rw [show (twoDigits (cents % 100)).length = 2 from rfl]
    rw [cents_decompose]
    rfl
  · rw [List.head?_cons, hlast]
    simp

theorem parseAmount_formatCommaDec (cents : ℕ) :
    parseAmount (formatCommaDec cents) = some ((cents : ℚ) / 100) := by
  have hIdig : ∀ c ∈ natDigits (cents / 100), isDigitCh c = true :=
    natDigits_all_digits _
  have hTdig : ∀ c ∈ twoDigits (cents % 100), isDigitCh c = true :=
    twoDigits_all_digits _
  have hIne : natDigits (cents / 100) ≠ [] := natDigits_ne_nil _
  have hkeep : ∀ c ∈ (formatCommaDec cents).data, c ≠ '$' ∧ c ≠ ' ' := by
    intro c hc
    show c ≠ '$' ∧ c ≠ ' '
    rcases List.mem_append.mp hc with hc | hc
    · exact ⟨(isDigitCh_ne c (hIdig c hc)).2.2.1,
        (isDigitCh_ne c (hIdig c hc)).2.2.2.1⟩
    · rcases List.mem_cons.mp hc with rfl | hc
      · exact ⟨by decide, by decide⟩
      · exact ⟨(isDigitCh_ne c (hTdig c hc)).2.2.1,
          (isDigitCh_ne c (hTdig c hc)).2.2.2.1⟩
  have hlastd : isDigitCh (digitCh (cents % 100 % 10)) = true := isDigitCh_digitCh _
  have hlast : (formatCommaDec cents).data.getLast? = some (digitCh (cents % 100 % 10)) := by
    show (natDigits (cents / 100) ++ ',' :: twoDigits (cents % 100)).getLast? = _
    rw [show (natDigits (cents / 100) ++ ',' :: twoDigits (cents % 100)) =
      ((natDigits (cents / 100) ++ [',', digitCh (cents % 100 / 10)]) ++
        [digitCh (cents % 100 % 10)]) from by simp [twoDigits]]
    exact List.getLast?_concat _
  rw [parseAmount, stripCurrencyChars_eq_self _ hkeep,
    dropSuffixCAD_of_getLast _ _ hlast (isDigitCh_ne _ hlastd).2.2.2.2.2.2.2.2]
  obtain ⟨c, Itail, hI⟩ := List.exists_cons_of_ne_nil hIne
  have hcd : isDigitCh c = true := hIdig c (by rw [hI]; exact List.mem_cons_self _ _)
  have hhead : (formatCommaDec cents).data.head? = some c := by
    show (natDigits (cents / 100) ++ ',' :: twoDigits (cents % 100)).head? = _
    rw [hI, List.cons_append, List.head?_cons]
  rw [parseSigned_digit_head _ c hhead hcd]
  have hclass : classifyCommas (formatCommaDec cents).data =
      natDigits (cents / 100) ++ '.' :: twoDigits (cents % 100) := by
    show classifyCommas (natDigits (cents / 100) ++ ',' :: twoDigits (cents % 100)) = _
    rw [classifyCommas_append_of_no_comma _ _
      (fun d hd => (isDigitCh_ne d (hIdig d hd)).1)]
    congr 1
    rw [classifyCommas]
    rw [if_pos rfl]
    rw [if_neg (by
      show ¬ commaIsGroup [digitCh (cents % 100 / 10), digitCh (cents % 100 % 10)] = true
      rw [commaIsGroup]
      · simp
      · intro d1 d2 d3 tail hcontra
        simp at hcontra)]
    congr 1
    exact classifyCommas_eq_self _ (fun d hd => (isDigitCh_ne d (hTdig d hd)).1)
  rw [hclass, parseUnsigned_format _ _ hIne hIdig hTdig]
  rw [digitsVal_natDigits, digitsVal_twoDigits _ (by omega)]
  rw [show (twoDigits (cents % 100)).length = 2 from rfl]
  rw [cents_decompose]

/-! ## Institutions and date parsing

Modelled from the spec: the closed institution registry (spec sections 4.1 and
9, changelog 0.4.0) and the Date Normalizer `parseDate(raw, hint)` with its
resolution rule for ambiguous two-token dates (spec section 4.5). -/

/-- Decidable equality of fallible results, used to evaluate the pipeline on
concrete inputs. -/
instance exceptDecEq {e a : Type} [DecidableEq e] [DecidableEq a] :
    DecidableEq (Except e a) := fun x y =>
  match x, y with
  | .error e1, .error e2 =>
      if h : e1 = e2 then isTrue (by rw [h])
      else isFalse (by intro hc; injection hc; contradiction)
  | .ok a1, .ok a2 =>
      if h : a1 = a2 then isTrue (by rw [h])
      else isFalse (by intro hc; injection hc; contradiction)
  | .error _, .ok _ => isFalse (by intro hc; injection hc)
  | .ok _, .error _ => isFalse (by intro hc; injection hc)

/-- The closed set of supported institutions plus the unknown fallback. -/
inductive Institution
  | CIBC
  | RBC
  | TD
  | BMO
  | Scotiabank
  | AMEX
  | Unknown
deriving DecidableEq

/-- Row-level error kinds collected by the pipeline (spec section 7). -/
inductive RowErrorKind
  | UnparseableDate
  | UnparseableAmount
  | AmbiguousDebitCredit
  | MissingRequiredField
  | AmbiguousDate
deriving DecidableEq

/-- A calendar date with no time component. -/
structure CalDate where
  year : ℕ
  month : ℕ
  day : ℕ
deriving DecidableEq

/-- Day-first or month-first reading of a two-token numeric date. -/
inductive DateOrder
  | dayFirst
  | monthFirst
deriving DecidableEq

/-- Modelled from the spec: the documented per-institution date-format
convention (the changelog documents day-first day/month/year exports for the
supported Canadian institutions); the unknown institution has none. -/
def dateConvention : Institution → Option DateOrder
  | .Unknown => none
  | _ => some .dayFirst

/-- Split a character list on a separator character. -/
def splitSep (sep : Char) : List Char → List (List Char)
  | [] => [[]]
  | c :: rest =>
      if c = sep then [] :: splitSep sep rest
      else
        match splitSep sep rest with
        | [] => [[c]]
        | t :: ts => (c :: t) :: ts

/-- Reject a date whose month or day is out of range. -/
def mkValid (y m d : ℕ) : Except RowErrorKind CalDate :=
  if 1 ≤ m ∧ m ≤ 12 ∧ 1 ≤ d ∧ d ≤ 31 then .ok ⟨y, m, d⟩
  else .error .UnparseableDate

/-- Resolve a two-token numeric date: a documented institution convention wins;
otherwise day-first is chosen only when the first token is unambiguous (above
twelve), month-first only when the second is, and the rest is flagged
ambiguous rather than guessed. -/
def resolveNN (a b y : ℕ) (inst : Institution) : Except RowErrorKind CalDate :=
  match dateConvention inst with
  | some .dayFirst => mkValid y b a
  | some .monthFirst => mkValid y a b
  | none =>
      if 12 < a then mkValid y b a
      else if 12 < b then mkValid y a b
      else .error .AmbiguousDate

/-- A token is numeric: nonempty and all digits. -/
def numToken (t : List Char) : Bool := !t.isEmpty && t.all isDigitCh

/-- Modelled from the spec: `parseDate` of the Date Normalizer. Supports the
dash format year-month-day and the slash formats year/month/day and
day-or-month/month-or-day/year, the last resolved through `resolveNN`. -/
def parseDate (s : String) (inst : Institution) : Except RowErrorKind CalDate :=
  let cs := s.data
  if cs.any (fun c => c = '-') then
    match splitSep '-' cs with
    | [t1, t2, t3] =>
        if numToken t1 && numToken t2 && numToken t3 && t1.length = 4 then
          mkValid (digitsVal t1) (digitsVal t2) (digitsVal t3)
        else .error .UnparseableDate
    | _ => .error .UnparseableDate
  else
    match splitSep '/' cs with
    | [t1, t2, t3] =>
        if numToken t1 && numToken t2 && numToken t3 then
          if t1.length = 4 then mkValid (digitsVal t1) (digitsVal t2) (digitsVal t3)
          else if t3.length = 4 then resolveNN (digitsVal t1) (digitsVal t2) (digitsVal t3) inst
          else .error .UnparseableDate
        else .error .UnparseableDate
    | _ => .error .UnparseableDate

/-- Render a two-token slash date from its numeric fields. -/
def mkSlashDate (a b y : ℕ) : String :=
  ⟨natDigits a ++ '/' :: (natDigits b ++ '/' :: natDigits y)⟩

theorem splitSep_of_no_sep (sep : Char) (xs : List Char)
    (h : ∀ c ∈ xs, c ≠ sep) : splitSep sep xs = [xs] := by
  induction xs with
  | nil => rfl
  | cons c rest ih =>
    rw [splitSep]
    have hc : c ≠ sep := h c (List.mem_cons_self _ _)
    simp only [hc, ite_false]
    rw [ih (fun d hd => h d (List.mem_cons_of_mem _ hd))]

theorem splitSep_append (sep : Char) (xs ys : List Char)
    (h : ∀ c ∈ xs, c ≠ sep) :
    splitSep sep (xs ++ sep :: ys) = xs :: splitSep sep ys := by
  induction xs with
  | nil => simp [splitSep]
  | cons c rest ih =>
    rw [List.cons_append, splitSep]
    have hc : c ≠ sep := h c (List.mem_cons_self _ _)
    simp only [hc, ite_false]
    rw [ih (fun d hd => h d (List.mem_cons_of_mem _ hd))]

theorem parseDate_mkSlashDate (a b y : ℕ) (inst : Institution)
    (ha : a < 100) (hy1 : 1000 ≤ y) (hy2 : y < 10000) :
    parseDate (mkSlashDate a b y) inst = resolveNN a b y inst := by
  have hA := natDigits_all_digits a
  have hB := natDigits_all_digits b
  have hY := natDigits_all_digits y
  have hdata : (mkSlashDate a b y).data =
      natDigits a ++ '/' :: (natDigits b ++ '/' :: natDigits y) := rfl
  have hnodash : ((mkSlashDate a b y).data.any (fun c => c = '-')) = false := by
    rw [hdata]
    rw [List.any_eq_false]
    intro c hc
    have hcne : c ≠ '-' := by
      rcases List.mem_append.mp hc with hc | hc
      · exact (isDigitCh_ne c (hA c hc)).2.2.2.2.2.2.1
      · rcases List.mem_cons.mp hc with rfl | hc
        · decide
        · rcases List.mem_append.mp hc with hc | hc
          · exact (isDigitCh_ne c (hB c hc)).2.2.2.2.2.2.1
          · rcases List.mem_cons.mp hc with rfl | hc
            · decide
            · exact (isDigitCh_ne c (hY c hc)).2.2.2.2.2.2.1
    simp [hcne]
  have hsplit : splitSep '/' (mkSlashDate a b y).data =
      [natDigits a, natDigits b, natDigits y] := by
    rw [hdata]
    rw [splitSep_append '/' _ _ (fun c hc => (isDigitCh_ne c (hA c hc)).2.2.2.2.2.2.2.1)]
    rw [splitSep_append '/' _ _ (fun c hc => (isDigitCh_ne c (hB c hc)).2.2.2.2.2.2.2.1)]
    rw [splitSep_of_no_sep '/' _ (fun c hc => (isDigitCh_ne c (hY c hc)).2.2.2.2.2.2.2.1)]
  have hnum : ∀ n : ℕ, numToken (natDigits n) = true := by
    intro n
    rw [numToken]
    simp [List.isEmpty_iff, natDigits_ne_nil n, List.all_eq_true]
    exact natDigits_all_digits n
  rw [parseDate]
  simp only [hnodash, Bool.false_eq_true, if_false, hsplit]
  simp only [hnum, Bool.true_and, Bool.and_self, ite_true]
  have hlen1 : (natDigits a).length ≠ 4 := by
    have := natDigits_length_of_lt a ha
    omega
  have hlen3 : (natDigits y).length = 4 := natDigits_length_four y hy1 hy2
  simp only [hlen1, ite_false, hlen3, ite_true]
  rw [digitsVal_natDigits, digitsVal_natDigits, digitsVal_natDigits]

/-- C7: for a two-token slash date, `parseDate` follows the detected
institution date convention when one is documented; with no convention it
reads day-first only when the first token exceeds twelve, and flags the
fully ambiguous case (both tokens at most twelve) as an `AmbiguousDate`
error instead of guessing. -/
theorem parseDate_ambiguous_resolution (a b y : ℕ) (inst : Institution)
    (ha : a < 100) (_hb : b < 100) (hy1 : 1000 ≤ y) (hy2 : y < 10000) :
    (∀ conv, dateConvention inst = some conv →
      parseDate (mkSlashDate a b y) inst =
        (match conv with
         | DateOrder.dayFirst => mkValid y b a
         | DateOrder.monthFirst => mkValid y a b)) ∧
    (dateConvention inst = none → 12 < a →
      parseDate (mkSlashDate a b y) inst = mkValid y b a) ∧
    (dateConvention inst = none → a ≤ 12 → b ≤ 12 →
      parseDate (mkSlashDate a b y) inst = Except.error RowErrorKind.AmbiguousDate) := by
  rw [parseDate_mkSlashDate a b y inst ha hy1 hy2]
  refine ⟨?_, ?_, ?_⟩
  · intro conv hconv
    rw [resolveNN, hconv]
    cases conv <;> rfl
  · intro hconv hgt
    rw [resolveNN, hconv]
    simp [hgt]
  · intro hconv hle1 hle2
    rw [resolveNN, hconv]
    have h1 : ¬ 12 < a := by omega
    have h2 : ¬ 12 < b := by omega
    simp [h1, h2]

/-- Witness for C7 at a concrete ambiguous date and the unknown institution. -/
theorem parseDate_ambiguous_resolution_witness :
    parseDate (mkSlashDate 3 4 2025) Institution.Unknown =
      Except.error RowErrorKind.AmbiguousDate :=
  (parseDate_ambiguous_resolution 3 4 2025 Institution.Unknown (by decide) (by decide)
    (by decide) (by decide)).2.2 rfl (by decide) (by decide)

/-- C8: `parseDate` is deterministic: two evaluations on the same raw string
and institution agree. -/
theorem parseDate_deterministic (s : String) (inst : Institution)
    (r1 r2 : Except RowErrorKind CalDate)
    (h1 : parseDate s inst = r1) (h2 : parseDate s inst = r2) : r1 = r2 := by
  rw [← h1, ← h2]

/-- Witness for C8 at a concrete date string. -/
theorem parseDate_deterministic_witness :
    (Except.ok ⟨2025, 8, 1⟩ : Except RowErrorKind CalDate) = Except.ok ⟨2025, 8, 1⟩ :=
  parseDate_deterministic "2025-08-01" Institution.CIBC _ _ rfl rfl

/-! ## Bank format detection

Modelled from the spec: `detect(fileBytes, declaredName) -> DetectedSource`
(spec section 4.1) over the supported-institution registry of header
signatures and page-one boilerplate tokens. -/

/-- File kind of an upload. -/
inductive FileKind
  | PDF
  | CSV
deriving DecidableEq

/-- Immutable classification result of the detector. -/
structure DetectedSource where
  institution : Institution
  fileKind : FileKind
deriving DecidableEq

/-- File-level errors that abort ingestion of a whole file. -/
inductive FileError
  | FileUnreadable
  | HeaderNotFound
deriving DecidableEq

/-- Uploaded file content as the pipeline sees it after the adapters: a CSV
with a header row and data rows, a PDF reduced to rows of text tokens, or an
unreadable file. Modelled from the spec data model (RawStatementFile, RawLine
and the PDF/CSV adapters of spec sections 4.2 and 4.3). -/
inductive FileContent
  | csv (header : List String) (rows : List (List String))
  | pdf (lines : List (List String))
  | unreadable
deriving DecidableEq

/-- Case-insensitive string equality. -/
def eqCI (a b : String) : Bool :=
  decide (a.data.map Char.toLower = b.data.map Char.toLower)

/-- Modelled from the spec: the per-bank CSV header signatures of the closed
institution registry (spec sections 4.1 and 6, changelog 0.4.0). -/
def signatures : List (Institution × List String) :=
  [ (.CIBC, ["Date", "Description", "Debit", "Credit", "Balance"]),
    (.TD, ["Date", "Description", "Debit", "Credit", "Balance"]),
    (.RBC, ["Date", "Description", "Withdrawals", "Deposits", "Balance"]),
    (.BMO, ["Posting Date", "Transaction Details", "CAD$"]),
    (.AMEX, ["Date", "Description", "Amount"]) ]

/-- All required columns of a signature appear in the header. -/
def headerMatches (header : List String) (req : List String) : Bool :=
  req.all (fun cname => header.any (fun h => eqCI h cname))

/-- First signature matching all its required columns wins; among full
matches the one with the most required columns is preferred. -/
def bestSignature (header : List String) : Option Institution :=
  match signatures.filter (fun sig => headerMatches header sig.2) with
  | [] => none
  | m :: rest =>
      some ((rest.foldl (fun best sig =>
        if best.2.length < sig.2.length then sig else best) m).1)

/-- Modelled from the spec: per-bank page-one boilerplate tokens for PDF
statements. -/
def pdfSignatures : List (Institution × String) :=
  [ (.CIBC, "CIBC"), (.RBC, "RBC"), (.TD, "TD"), (.BMO, "BMO"),
    (.Scotiabank, "Scotiabank"), (.AMEX, "AMEX") ]

/-- First institution whose boilerplate token appears in the first lines of
page one. -/
def pdfBest (lines : List (List String)) : Option Institution :=
  (pdfSignatures.find? (fun sig =>
    (lines.take 10).any (fun line => line.any (fun tok => eqCI tok sig.2)))).map
    (fun sig => sig.1)

/-- Modelled from the spec: the Bank Format Detector. Unrecognized content
classifies as the unknown institution; only an unreadable file is a hard
failure. -/
def detect (f : FileContent) (_declared : String) : Except FileError DetectedSource :=
  match f with
  | .unreadable => .error .FileUnreadable
  | .csv header _ => .ok ⟨(bestSignature header).getD .Unknown, .CSV⟩
  | .pdf lines => .ok ⟨(pdfBest lines).getD .Unknown, .PDF⟩

/-! ## Per-institution line extraction

Modelled from the spec: `extract(rawLine, detectedSource) ->
CandidateTransaction | RowError` with one strategy per institution plus the
generic fallback (spec section 4.4). -/

/-- How a candidate carries its raw amount: a debit-column value, a
credit-column value, or a single signed amount column. -/
inductive AmountSpec
  | debit (raw : String)
  | credit (raw : String)
  | signedSingle (raw : String)
deriving DecidableEq

/-- Output of an extractor before normalization. -/
structure CandidateTransaction where
  rawDate : String
  rawDesc : String
  amount : AmountSpec
deriving DecidableEq

/-- An extraction strategy: the column names it reads, or the generic
content-shape heuristic. -/
inductive Strategy
  | debitCredit (dateCol descCol debitCol creditCol : String)
  | singleAmount (dateCol descCol amountCol : String)
  | generic
deriving DecidableEq

/-- Modelled from the spec: the strategy registry resolved once after
detection (spec section 9, changelog 0.4.0 column orders). -/
def chooseStrategy : Institution → Strategy
  | .CIBC => .debitCredit "Date" "Description" "Debit" "Credit"
  | .TD => .debitCredit "Date" "Description" "Debit" "Credit"
  | .Scotiabank => .debitCredit "Date" "Description" "Debit" "Credit"
  | .RBC => .debitCredit "Date" "Description" "Withdrawals" "Deposits"
  | .BMO => .singleAmount "Posting Date" "Transaction Details" "CAD$"
  | .AMEX => .singleAmount "Date" "Description" "Amount"
  | .Unknown => .generic

/-- Trim the spaces at both ends of a string. -/
def strTrim (s : String) : String :=
  ⟨((s.data.dropWhile (fun c => c = ' ')).reverse.dropWhile (fun c => c = ' ')).reverse⟩

/-- Header-keyed cell lookup, case-insensitive on the column name, so the
physical column order of the source file is irrelevant. -/
def lookupCol (header cells : List String) (name : String) : Option String :=
  (header.findIdx? (fun h => eqCI h name)).bind (fun i => cells.get? i)

/-- Extractor for statements with separate debit/credit (or
withdrawal/deposit) columns: exactly one of the two must be non-empty. -/
def extractDebitCredit (dateCol descCol debitCol creditCol : String)
    (header cells : List String) : Except RowErrorKind CandidateTransaction :=
  match lookupCol header cells dateCol with
  | none => .error .MissingRequiredField
  | some d =>
    match lookupCol header cells descCol with
    | none => .error .MissingRequiredField
    | some ds =>
      match lookupCol header cells debitCol with
      | none => .error .MissingRequiredField
      | some db =>
        match lookupCol header cells creditCol with
        | none => .error .MissingRequiredField
        | some cr =>
          if strTrim db = "" then
            if strTrim cr = "" then .error .MissingRequiredField
            else .ok ⟨d, ds, .credit (strTrim cr)⟩
          else
            if strTrim cr = "" then .ok ⟨d, ds, .debit (strTrim db)⟩
            else .error .AmbiguousDebitCredit

/-- Extractor for statements with a single signed amount column. -/
def extractSingle (dateCol descCol amountCol : String)
    (header cells : List String) : Except RowErrorKind CandidateTransaction :=
  match lookupCol header cells dateCol with
  | none => .error .MissingRequiredField
  | some d =>
    match lookupCol header cells descCol with
    | none => .error .MissingRequiredField
    | some ds =>
      match lookupCol header cells amountCol with
      | none => .error .MissingRequiredField
      | some am =>
        if strTrim am = "" then .error .MissingRequiredField
        else .ok ⟨d, ds, .signedSingle (strTrim am)⟩

/-- A cell looks like a date: it parses, or fails only by ambiguity. -/
def looksLikeDate (s : String) : Bool :=
  match parseDate (strTrim s) .Unknown with
  | .ok _ => true
  | .error .AmbiguousDate => true
  | .error _ => false

/-- A cell looks like a money amount. -/
def looksLikeMoney (s : String) : Bool := (parseAmount (strTrim s)).isSome

/-- Join tokens with single spaces. -/
def joinSp : List String → String
  | [] => ""
  | [t] => t
  | t :: rest => t ++ " " ++ joinSp rest

/-- Generic fallback extractor: guess columns by content shape — a token
matching a date pattern, a token matching a money pattern, the remainder as
description. -/
def extractGeneric (cells : List String) :
    Except RowErrorKind CandidateTransaction :=
  match cells.findIdx? looksLikeDate with
  | none => .error .MissingRequiredField
  | some di =>
    let rest := cells.eraseIdx di
    match rest.findIdx? looksLikeMoney with
    | none => .error .MissingRequiredField
    | some ai =>
      .ok ⟨strTrim ((cells.get? di).getD ""), joinSp (rest.eraseIdx ai),
        .signedSingle (strTrim ((rest.get? ai).getD ""))⟩

/-- Dispatch a raw line to the selected strategy. -/
def extractRow (strat : Strategy) (header cells : List String) :
    Except RowErrorKind CandidateTransaction :=
  match strat with
  | .debitCredit dc dsc db cr => extractDebitCredit dc dsc db cr header cells
  | .singleAmount dc dsc am => extractSingle dc dsc am header cells
  | .generic => extractGeneric cells

/-! ## Normalization, duplicate guard and the ingestion pipeline

Modelled from the spec: the Numeric/Date Normalizer application (spec section
4.5), the Duplicate Guard (4.6) and the Transaction Ingestion Pipeline (4.7)
with the persistence store threaded explicitly. -/

/-- Canonical persisted transaction (spec section 3). -/
structure Txn where
  date : CalDate
  amount : ℚ
  description : String
  accountId : ℕ
  bankName : Institution
deriving DecidableEq

/-- Collapse runs of spaces to single spaces. -/
def collapseSpaces : List Char → List Char
  | [] => []
  | [c] => [c]
  | c :: d :: rest =>
      if c = ' ' ∧ d = ' ' then collapseSpaces (d :: rest)
      else c :: collapseSpaces (d :: rest)

/-- Description normalization used by the duplicate guard: case-insensitive
exact match after whitespace collapsing (the documented default of spec
section 9). -/
def normDesc (s : String) : String :=
  ⟨(collapseSpaces (strTrim s).data).map Char.toLower⟩

/-- A stored transaction matches a candidate: same account, identical date and
amount, and normalized description equality. -/
def txnMatches (t e : Txn) : Bool :=
  decide (e.accountId = t.accountId) && decide (e.date = t.date) &&
    decide (e.amount = t.amount) &&
    decide (normDesc e.description = normDesc t.description)

/-- Modelled from the spec: the Duplicate Guard
`isDuplicate(candidate, existingForAccount)`. -/
def isDuplicate (t : Txn) (existing : List Txn) : Bool :=
  existing.any (fun e => txnMatches t e)

/-- Digit-level magnitude of a debit/credit cell: currency markers and any
sign marker of the cell (parentheses or a leading minus) are stripped, and the
integer value, fractional value and fractional length of the remaining
decimal literal are returned. The direction of such a cell is given by which
column it sits in, never by the cell itself. -/
def magnitudeParts (raw : String) : Option (ℕ × ℕ × ℕ) :=
  let cs := dropSuffixCAD (stripCurrencyChars raw.data)
  let cs2 :=
    if cs.head? = some '(' && cs.getLast? = some ')' then (cs.drop 1).dropLast
    else if cs.head? = some '-' then cs.drop 1
    else cs
  let body := classifyCommas cs2
  if (splitDot body).1 ≠ [] && (splitDot body).1.all isDigitCh &&
      (splitDot body).2.all isDigitCh then
    some (digitsVal (splitDot body).1, digitsVal (splitDot body).2,
      (splitDot body).2.length)
  else none

/-- The rational value of a digit-level magnitude. -/
def magnitudeVal (p : ℕ × ℕ × ℕ) : ℚ :=
  (p.1 : ℚ) + (p.2.1 : ℚ) / (10 : ℚ) ^ p.2.2

/-- Modelled from the spec: normalize a candidate into a canonical
transaction. The date is parsed with the institution hint. The system-wide
sign convention (spec sections 3 and 8) fixes the direction of a
debit/credit-column amount by the column alone: the cell magnitude is
persisted negative for a debit and positive for a credit, regardless of how
the cell itself writes the number. A zero magnitude resolves to no direction
at all, so per the CandidateTransaction invariant (spec section 3) such a row
is rejected with a row error rather than persisted. A single signed amount
column is taken as written, its literal sign determining the direction. -/
def normalizeCandidate (inst : Institution) (acct : ℕ)
    (c : CandidateTransaction) : Except RowErrorKind Txn :=
  match parseDate c.rawDate inst with
  | .error e => .error e
  | .ok d =>
    match c.amount with
    | .debit raw =>
        match magnitudeParts raw with
        | none => .error .UnparseableAmount
        | some p =>
            if p.1 = 0 && p.2.1 = 0 then .error .UnparseableAmount
            else .ok ⟨d, -magnitudeVal p, strTrim c.rawDesc, acct, inst⟩
    | .credit raw =>
        match magnitudeParts raw with
        | none => .error .UnparseableAmount
        | some p =>
            if p.1 = 0 && p.2.1 = 0 then .error .UnparseableAmount
            else .ok ⟨d, magnitudeVal p, strTrim c.rawDesc, acct, inst⟩
    | .signedSingle raw =>
        match parseAmount raw with
        | none => .error .UnparseableAmount
        | some q => .ok ⟨d, q, strTrim c.rawDesc, acct, inst⟩

/-- Extraction followed by normalization for one raw line. -/
def processRow (inst : Institution) (strat : Strategy) (acct : ℕ)
    (header cells : List String) : Except RowErrorKind Txn :=
  match extractRow strat header cells with
  | .error e => .error e
  | .ok cand => normalizeCandidate inst acct cand

/-- Detection plus per-row extraction and normalization: the detected
institution and the row results of a file, or a file-level error. -/
def fileResults (f : FileContent) (acct : ℕ) :
    Except FileError (Institution × List (Except RowErrorKind Txn)) :=
  match f with
  | .unreadable => .error .FileUnreadable
  | .csv header rows =>
      if header.isEmpty then .error .HeaderNotFound
      else
        .ok ((bestSignature header).getD .Unknown,
          rows.map (processRow ((bestSignature header).getD .Unknown)
            (chooseStrategy ((bestSignature header).getD .Unknown)) acct header))
  | .pdf lines =>
      .ok ((pdfBest lines).getD .Unknown,
        lines.map (fun cells =>
          match extractGeneric cells with
          | .error e => .error e
          | .ok cand => normalizeCandidate ((pdfBest lines).getD .Unknown) acct cand))

/-- Whether a row result is an error. -/
def isErr : Except RowErrorKind Txn → Bool
  | .error _ => true
  | .ok _ => false

/-- The successfully parsed transactions of a run. -/
def okTxns (results : List (Except RowErrorKind Txn)) : List Txn :=
  results.filterMap (fun r => match r with | .ok t => some t | .error _ => none)

/-- One-based row indices and reasons of the failed rows. -/
def rowErrorsFrom : ℕ → List (Except RowErrorKind Txn) → List (ℕ × RowErrorKind)
  | _, [] => []
  | i, .ok _ :: rest => rowErrorsFrom (i + 1) rest
  | i, .error e :: rest => (i, e) :: rowErrorsFrom (i + 1) rest

/-- Row errors of a run, indexed from one. -/
def rowErrorList (results : List (Except RowErrorKind Txn)) :
    List (ℕ × RowErrorKind) :=
  rowErrorsFrom 1 results

/-- Summary of one ingestion run (spec section 3). -/
structure UploadReport where
  bankDetected : Institution
  totalFound : ℕ
  newlyAdded : ℕ
  duplicatesSkipped : ℕ
  rowErrors : List (ℕ × RowErrorKind)
deriving DecidableEq

/-- Parsed transactions that are not already stored for the account: the
survivors the pipeline persists. -/
def newTxns (results : List (Except RowErrorKind Txn)) (store : List Txn) :
    List Txn :=
  (okTxns results).filter (fun t => !isDuplicate t store)

/-- Parsed transactions skipped as duplicates of the stored ones. -/
def dupTxns (results : List (Except RowErrorKind Txn)) (store : List Txn) :
    List Txn :=
  (okTxns results).filter (fun t => isDuplicate t store)

/-- The UploadReport of one run against a given store. -/
def buildReport (inst : Institution)
    (results : List (Except RowErrorKind Txn)) (store : List Txn) :
    UploadReport :=
  ⟨inst, (okTxns results).length, (newTxns results store).length,
    (dupTxns results store).length, rowErrorList results⟩

/-- Modelled from the spec: `ingest(file, accountId) -> UploadReport` (spec
section 4.7) with the persisted store threaded explicitly — detect, adapt,
extract and normalize per row collecting row errors, check every candidate
against the existing transactions of the account, persist the survivors and
report. -/
def ingest (f : FileContent) (acct : ℕ) (store : List Txn) :
    Except FileError (UploadReport × List Txn) :=
  match fileResults f acct with
  | .error e => .error e
  | .ok (inst, results) =>
      .ok (buildReport inst results store, store ++ newTxns results store)

/-! ## Duplicate-guard lemmas -/

theorem txnMatches_refl (t : Txn) : txnMatches t t = true := by
  simp [txnMatches]

theorem isDuplicate_append_left (t : Txn) (s u : List Txn)
    (h : isDuplicate t s = true) : isDuplicate t (s ++ u) = true := by
  rw [isDuplicate, List.any_append]
  rw [isDuplicate] at h
  simp [h]

theorem isDuplicate_of_mem (t : Txn) (s : List Txn) (h : t ∈ s) :
    isDuplicate t s = true := by
  rw [isDuplicate, List.any_eq_true]
  exact ⟨t, h, txnMatches_refl t⟩

/-- After one run, every parsed transaction of the run is a duplicate with
respect to the store the run left behind. -/
theorem all_dup_after_run (t : Txn) (results : List (Except RowErrorKind Txn))
    (store : List Txn) (ht : t ∈ okTxns results) :
    isDuplicate t (store ++ newTxns results store) = true := by
  by_cases hd : isDuplicate t store = true
  · exact isDuplicate_append_left _ _ _ hd
  · have hmem : t ∈ newTxns results store := by
      rw [newTxns, List.mem_filter]
      refine ⟨ht, ?_⟩
      simp only [Bool.not_eq_true] at hd
      simp [hd]
    exact isDuplicate_of_mem _ _ (List.mem_append_right _ hmem)

theorem newTxns_nil_of_all_dup (results : List (Except RowErrorKind Txn))
    (store : List Txn) (h : ∀ t ∈ okTxns results, isDuplicate t store = true) :
    newTxns results store = [] := by
  rw [newTxns, List.filter_eq_nil_iff]
  intro t ht
  simp [h t ht]

theorem dupTxns_all_of_all_dup (results : List (Except RowErrorKind Txn))
    (store : List Txn) (h : ∀ t ∈ okTxns results, isDuplicate t store = true) :
    dupTxns results store = okTxns results := by
  rw [dupTxns, List.filter_eq_self]
  exact h

theorem rowErrorsFrom_length (results : List (Except RowErrorKind Txn)) :
    ∀ i, (rowErrorsFrom i results).length = results.countP isErr := by
  induction results with
  | nil => intro i; rfl
  | cons r rest ih =>
    intro i
    cases r with
    | ok t =>
      rw [rowErrorsFrom, ih, List.countP_cons]
      simp [isErr]
    | error e =>
      rw [rowErrorsFrom, List.length_cons, ih, List.countP_cons]
      simp [isErr]

/-- C1: ingestion is idempotent per file and account — re-running a
successful ingest on the store it produced adds nothing: the second report
counts zero newly added transactions, the same total found, every found
transaction skipped as a duplicate, and the store is unchanged. -/
theorem ingest_idempotent (f : FileContent) (acct : ℕ) (store : List Txn)
    (r1 : UploadReport) (s1 : List Txn)
    (h : ingest f acct store = .ok (r1, s1)) :
    ∃ r2 : UploadReport,
      ingest f acct s1 = .ok (r2, s1) ∧
      r2.newlyAdded = 0 ∧
      r2.totalFound = r1.totalFound ∧
      r2.duplicatesSkipped = r2.totalFound := by
  rw [ingest] at h
  cases hres : fileResults f acct with
  | error e =>
    rw [hres] at h
    exact absurd h (by simp)
  | ok p =>
    obtain ⟨inst, results⟩ := p
    rw [hres] at h
    simp only [Except.ok.injEq, Prod.mk.injEq] at h
    obtain ⟨hr1, hs1⟩ := h
    have halldup : ∀ t ∈ okTxns results, isDuplicate t s1 = true := by
      intro t ht
      rw [← hs1]
      exact all_dup_after_run t results store ht
    have hnew : newTxns results s1 = [] := newTxns_nil_of_all_dup results s1 halldup
    refine ⟨buildReport inst results s1, ?_, ?_, ?_, ?_⟩
    · rw [ingest, hres]
      show Except.ok (buildReport inst results s1, s1 ++ newTxns results s1) = _
      rw [hnew]
      simp
    · show (newTxns results s1).length = 0
      rw [hnew]
      rfl
    · rw [← hr1]
      rfl
    · show (dupTxns results s1).length = (okTxns results).length
      rw [dupTxns_all_of_all_dup results s1 halldup]

/-- The spec example file: a recognized header and two well-formed rows. -/
def idemFile : FileContent :=
  .csv ["Date", "Description", "Debit", "Credit", "Balance"]
    [["2025-08-01", "Coffee Shop", "4.50", "", "120.00"],
     ["2025-08-02", "Payroll", "", "2000.00", "2120.00"]]

/-- The first run of the example file against the empty store. -/
def idemRun : Except FileError (UploadReport × List Txn) := ingest idemFile 1 []

/-- Report of the first example run. -/
def idemReport : UploadReport :=
  match idemRun with
  | .ok (r, _) => r
  | .error _ => ⟨.Unknown, 0, 0, 0, []⟩

/-- Store left by the first example run. -/
def idemStore : List Txn :=
  match idemRun with
  | .ok (_, s) => s
  | .error _ => []

/-- Witness for C1 at the spec example file. -/
theorem ingest_idempotent_witness :
    ∃ r2 : UploadReport,
      ingest idemFile 1 idemStore = .ok (r2, idemStore) ∧
      r2.newlyAdded = 0 ∧
      r2.totalFound = idemReport.totalFound ∧
      r2.duplicatesSkipped = r2.totalFound :=
  ingest_idempotent idemFile 1 [] idemReport idemStore rfl

/-- C3: a bad row never aborts the file — when the parsed rows of a file
split into one failing row and N successes none of which duplicates the
stored transactions, ingest reports exactly N newly added transactions and
one row error. -/
theorem ingest_row_isolation (f : FileContent) (acct : ℕ) (store : List Txn)
    (inst : Institution) (results : List (Except RowErrorKind Txn)) (N : ℕ)
    (hres : fileResults f acct = .ok (inst, results))
    (herr : results.countP isErr = 1)
    (hok : (okTxns results).length = N)
    (hnodup : ∀ t ∈ okTxns results, isDuplicate t store = false) :
    ∃ r : UploadReport,
      ingest f acct store = .ok (r, store ++ okTxns results) ∧
      r.newlyAdded = N ∧ r.rowErrors.length = 1 ∧ r.totalFound = N := by
  have hnew : newTxns results store = okTxns results := by
    rw [newTxns, List.filter_eq_self]
    intro t ht
    simp [hnodup t ht]
  refine ⟨buildReport inst results store, ?_, ?_, ?_, ?_⟩
  · rw [ingest, hres]
    show Except.ok (buildReport inst results store, store ++ newTxns results store) = _
    rw [hnew]
  · show (newTxns results store).length = N
    rw [hnew, hok]
  · show (rowErrorList results).length = 1
    rw [rowErrorList, rowErrorsFrom_length results 1, herr]
  · exact hok

/-- A file with one malformed amount and one well-formed row. -/
def isoFile : FileContent :=
  .csv ["Date", "Description", "Debit", "Credit", "Balance"]
    [["2025-08-01", "Coffee Shop", "4.50", "", "120.00"],
     ["2025-08-02", "Broken", "abc", "", "0.00"]]

/-- Row results of the malformed-row example file. -/
def isoResults : List (Except RowErrorKind Txn) :=
  match fileResults isoFile 1 with
  | .ok (_, rs) => rs
  | .error _ => []

/-- Witness for C3 at the malformed-row example file. -/
theorem ingest_row_isolation_witness :
    ∃ r : UploadReport,
      ingest isoFile 1 [] = .ok (r, [] ++ okTxns isoResults) ∧
      r.newlyAdded = 1 ∧ r.rowErrors.length = 1 ∧ r.totalFound = 1 :=
  ingest_row_isolation isoFile 1 [] Institution.CIBC isoResults 1
    rfl (by decide) (by decide) (by decide)

/-- C4: sign resolution for separate debit/credit columns — the extractor
produces a candidate only when exactly one of the two columns is non-empty
after trimming; with both empty it returns a row error, and with both
non-empty it returns a row error rather than choosing. -/
theorem extract_sign_resolution (dateCol descCol debitCol creditCol : String)
    (header cells : List String) :
    (∀ cand, extractDebitCredit dateCol descCol debitCol creditCol header cells =
        Except.ok cand →
      ∃ d ds db cr, lookupCol header cells dateCol = some d ∧
        lookupCol header cells descCol = some ds ∧
        lookupCol header cells debitCol = some db ∧
        lookupCol header cells creditCol = some cr ∧
        ((strTrim db ≠ "" ∧ strTrim cr = "") ∨
         (strTrim db = "" ∧ strTrim cr ≠ ""))) ∧
    (∀ db cr, lookupCol header cells debitCol = some db →
      lookupCol header cells creditCol = some cr →
      strTrim db = "" → strTrim cr = "" →
      ∀ cand, extractDebitCredit dateCol descCol debitCol creditCol header cells ≠
        Except.ok cand) ∧
    (∀ db cr, lookupCol header cells debitCol = some db →
      lookupCol header cells creditCol = some cr →
      strTrim db ≠ "" → strTrim cr ≠ "" →
      ∀ cand, extractDebitCredit dateCol descCol debitCol creditCol header cells ≠
        Except.ok cand) := by
  refine ⟨?_, ?_, ?_⟩
  · intro cand h
    rw [extractDebitCredit] at h
    cases hl1 : lookupCol header cells dateCol with
    | none => simp [hl1] at h
    | some d =>
      simp only [hl1] at h
      cases hl2 : lookupCol header cells descCol with
      | none => simp [hl2] at h
      | some ds =>
        simp only [hl2] at h
        cases hl3 : lookupCol header cells debitCol with
        | none => simp [hl3] at h
        | some db =>
          simp only [hl3] at h
          cases hl4 : lookupCol header cells creditCol with
          | none => simp [hl4] at h
          | some cr =>
            simp only [hl4] at h
            by_cases hdb : strTrim db = ""
            · by_cases hcr : strTrim cr = ""
              · rw [if_pos hdb, if_pos hcr] at h
                exact absurd h (by simp)
              · exact ⟨d, ds, db, cr, rfl, rfl, rfl, rfl, Or.inr ⟨hdb, hcr⟩⟩
            · by_cases hcr : strTrim cr = ""
              · exact ⟨d, ds, db, cr, rfl, rfl, rfl, rfl, Or.inl ⟨hdb, hcr⟩⟩
              · rw [if_neg hdb, if_neg hcr] at h
                exact absurd h (by simp)
  · intro db cr hl3 hl4 hdb hcr cand h
    rw [extractDebitCredit] at h
    cases hl1 : lookupCol header cells dateCol with
    | none => simp [hl1] at h
    | some d =>
      simp only [hl1] at h
      cases hl2 : lookupCol header cells descCol with
      | none => simp [hl2] at h
      | some ds =>
        simp only [hl2, hl3, hl4] at h
        rw [if_pos hdb, if_pos hcr] at h
        exact absurd h (by simp)
  · intro db cr hl3 hl4 hdb hcr cand h
    rw [extractDebitCredit] at h
    cases hl1 : lookupCol header cells dateCol with
    | none => simp [hl1] at h
    | some d =>
      simp only [hl1] at h
      cases hl2 : lookupCol header cells descCol with
      | none => simp [hl2] at h
      | some ds =>
        simp only [hl2, hl3, hl4] at h
        rw [if_neg hdb, if_neg hcr] at h
        exact absurd h (by simp)

/-- Witness for C4 at a concrete row with both columns filled. -/
theorem extract_sign_resolution_witness :
    ∀ cand, extractDebitCredit "Date" "Description" "Debit" "Credit"
      ["Date", "Description", "Debit", "Credit", "Balance"]
      ["2025-08-01", "Oops", "5.00", "6.00", "0.00"] ≠ Except.ok cand :=
  (extract_sign_resolution "Date" "Description" "Debit" "Credit"
      ["Date", "Description", "Debit", "Credit", "Balance"]
      ["2025-08-01", "Oops", "5.00", "6.00", "0.00"]).2.2
    "5.00" "6.00" rfl rfl (by decide) (by decide)

/-- C5: a readable CSV whose header matches no institution signature detects
as the unknown institution (no exception), unknown routes to the generic
extraction strategy, and the detector errors only on an unreadable file. -/
theorem detect_unknown_fallback :
    (∀ (header : List String) (rows : List (List String)) (name : String),
      (∀ sig ∈ signatures, headerMatches header sig.2 = false) →
      detect (.csv header rows) name =
        Except.ok ⟨Institution.Unknown, FileKind.CSV⟩ ∧
      chooseStrategy Institution.Unknown = Strategy.generic) ∧
    (∀ (f : FileContent) (name : String) (e : FileError),
      detect f name = Except.error e →
      f = FileContent.unreadable ∧ e = FileError.FileUnreadable) := by
  constructor
  · intro header rows name hnone
    constructor
    · have hfilter : signatures.filter (fun sig => headerMatches header sig.2) = [] := by
        rw [List.filter_eq_nil_iff]
        intro sig hsig
        simp [hnone sig hsig]
      rw [detect, bestSignature, hfilter]
      rfl
    · rfl
  · intro f name e h
    cases f with
    | csv header rows =>
      rw [detect] at h
      exact absurd h (by simp)
    | pdf lines =>
      rw [detect] at h
      exact absurd h (by simp)
    | unreadable =>
      rw [detect] at h
      refine ⟨rfl, ?_⟩
      injection h with h
      exact h.symm

/-- Witness for C5 at a concrete unrecognized header. -/
theorem detect_unknown_fallback_witness :
    detect (FileContent.csv ["Foo", "Bar"] []) "mystery.csv" =
      Except.ok ⟨Institution.Unknown, FileKind.CSV⟩ ∧
    chooseStrategy Institution.Unknown = Strategy.generic :=
  detect_unknown_fallback.1 ["Foo", "Bar"] [] "mystery.csv" (by decide)

/-! ## Frontend embeddings

Embedded from the JavaScript source of the repository: the quick-add
transaction modal, the two upload modals and the method surface of the API
service layer. -/

/-- A JavaScript number: a rational or the not-a-number value. -/
inductive JSNum
  | num (q : ℚ)
  | nan
deriving DecidableEq

/-- JavaScript Math.abs. -/
def jsAbs : JSNum → JSNum
  | .num q => .num |q|
  | .nan => .nan

/-- JavaScript unary minus. -/
def jsNeg : JSNum → JSNum
  | .num q => .num (-q)
  | .nan => .nan

/-- JavaScript strict equality against zero, false on not-a-number. -/
def jsEqZero : JSNum → Bool
  | .num q => decide (q = 0)
  | .nan => false

/-- Longest digit prefix of a character list, and the remainder. -/
def takeDigits : List Char → List Char × List Char
  | [] => ([], [])
  | c :: rest =>
      if isDigitCh c then ((c :: (takeDigits rest).1), (takeDigits rest).2)
      else ([], c :: rest)

/-- Optional sign prefix. -/
def floatSign : List Char → ℚ × List Char
  | '-' :: rest => (-1, rest)
  | '+' :: rest => (1, rest)
  | cs => (1, cs)

/-- Digits with an optional fractional part; not-a-number when no digit was
found at all. -/
def floatBody (sign : ℚ) (cs : List Char) : JSNum :=
  match (takeDigits cs).2 with
  | '.' :: rest2 =>
      if (takeDigits cs).1.isEmpty && (takeDigits rest2).1.isEmpty then .nan
      else .num (sign * ((digitsVal (takeDigits cs).1 : ℚ) +
        (digitsVal (takeDigits rest2).1 : ℚ) / (10 : ℚ) ^ (takeDigits rest2).1.length))
  | _ =>
      if (takeDigits cs).1.isEmpty then .nan
      else .num (sign * (digitsVal (takeDigits cs).1 : ℚ))

/-- JavaScript parseFloat on the decimal subset the form uses: optional
leading spaces and sign, then digits with an optional fractional part; any
input with no leading numeric prefix parses to not-a-number. -/
def parseFloat (s : String) : JSNum :=
  floatBody (floatSign (s.data.dropWhile (fun c => c = ' '))).1
    (floatSign (s.data.dropWhile (fun c => c = ' '))).2

/-- The two transaction kinds of the quick-add form. -/
inductive TxnType
  | expense
  | income
deriving DecidableEq

/-- State of the quick-add form at submission. -/
structure QuickAddForm where
  description : String
  amount : String
  date : String
  categoryId : Option ℕ
  accountId : ℕ
  type : TxnType
deriving DecidableEq

/-- The transaction payload the form posts. -/
structure SubmittedTxn where
  description : String
  amount : JSNum
  date : String
  categoryId : Option ℕ
  accountId : ℕ
deriving DecidableEq

/-- Outcome of a submission attempt. -/
inductive SubmitResult
  | validationError (msg : String)
  | submitted (t : SubmittedTxn)
deriving DecidableEq

/-- Embedded from handleSubmit of the QuickAddTransaction modal: reject an
empty trimmed description, then an empty amount string or one whose parsed
value is strictly equal to zero; otherwise submit, negating the absolute
parsed amount for an expense and taking the absolute value for an income. -/
def handleSubmit (fd : QuickAddForm) : SubmitResult :=
  if strTrim fd.description = "" then .validationError "Description is required"
  else if fd.amount = "" || jsEqZero (parseFloat fd.amount) then
    .validationError "Please enter a valid amount"
  else
    .submitted ⟨strTrim fd.description,
      (match fd.type with
       | .expense => jsNeg (jsAbs (parseFloat fd.amount))
       | .income => jsAbs (parseFloat fd.amount)),
      fd.date, fd.categoryId, fd.accountId⟩

/-- Embedded from api.js: the method names defined on the transactionAPI
object. -/
def transactionAPIMethods : List String :=
  ["getTransactions", "createTransaction", "updateTransaction",
   "deleteTransaction", "categorizeTransaction"]

/-- Embedded from api.js: the method names defined on the fileAPI object. -/
def fileAPIMethods : List String := ["uploadStatement", "getUploadedFiles"]

/-- A file as the upload components see it. -/
structure JsFile where
  name : String
  size : ℕ
deriving DecidableEq

/-- Suffix starting at the last dot, if any. -/
def lastDotSuffix : List Char → Option (List Char)
  | [] => none
  | c :: rest =>
      match lastDotSuffix rest with
      | some s => some s
      | none => if c = '.' then some (c :: rest) else none

/-- Embedded from the FileUploadModal: the lowercased substring of the file
name from the last dot; with no dot, the whole lowercased name (a JavaScript
substring of a negative lastIndexOf). -/
def fileExtension (name : String) : String :=
  match lastDotSuffix (name.data.map Char.toLower) with
  | some suffix => ⟨suffix⟩
  | none => ⟨name.data.map Char.toLower⟩

/-- Embedded from the FileUploadModal: the accepted extensions. -/
def allowedExtensions : List String := [".pdf", ".csv", ".xlsx", ".xls"]

/-- The state the modal reaches after an upload attempt. -/
inductive UploadUIState
  | errorShown (msg : String)
  | reportShown
deriving DecidableEq

/-- Embedded from uploadFile of the FileUploadModal: extension and size
validation, then a call to api.transactions.uploadPDF; the call can resolve
only if the transaction API defines that method, and otherwise the thrown
error lands in the catch branch that sets the error state. -/
def fileUploadModal_uploadFile (f : JsFile) : UploadUIState :=
  if ¬ (fileExtension f.name ∈ allowedExtensions) then
    .errorShown "Please select a PDF, CSV, or Excel file"
  else if 10 * 1024 * 1024 < f.size then
    .errorShown "File size must be less than 10MB"
  else if "uploadPDF" ∈ transactionAPIMethods then .reportShown
  else .errorShown "Upload failed. Please try again."

/-- Embedded from uploadFile of the PDFUpload component: with a selected file
the body calls api.transactions.uploadPDF directly, with the same catch
branch. -/
def pdfUpload_uploadFile (_f : JsFile) : UploadUIState :=
  if "uploadPDF" ∈ transactionAPIMethods then .reportShown
  else .errorShown "Upload failed. Please try again."

/-- C6: round-trip amount parsing — for every number of cents, parsing the
currency-suffixed comma-grouped rendering, the parenthesized-negative
rendering and the comma-as-decimal-separator rendering recovers exactly the
rendered value. -/
theorem amount_parse_roundTrip (cents : ℕ) :
    parseAmount (formatCAD cents) = some ((cents : ℚ) / 100) ∧
    parseAmount (formatParen cents) = some (-((cents : ℚ) / 100)) ∧
    parseAmount (formatCommaDec cents) = some ((cents : ℚ) / 100) :=
  ⟨parseAmount_formatCAD cents, parseAmount_formatParen cents,
    parseAmount_formatCommaDec cents⟩

/-- C2: the system-wide sign convention — every transaction a debit (or
withdrawal) column row normalizes to persists with a strictly negative
amount, and every one a credit (or deposit) column row normalizes to with a
strictly positive amount, with no side condition; debit/credit extraction
reads cells only through header-keyed lookup, so any two layouts agreeing on
lookup give identical results regardless of column order; and every numeric
amount the quick-add form submits is negative for an expense entry and
positive for an income entry. -/
theorem sign_convention :
    (∀ (inst : Institution) (acct : ℕ) (d ds raw : String) (t : Txn),
      normalizeCandidate inst acct ⟨d, ds, .debit raw⟩ = .ok t → t.amount < 0) ∧
    (∀ (inst : Institution) (acct : ℕ) (d ds raw : String) (t : Txn),
      normalizeCandidate inst acct ⟨d, ds, .credit raw⟩ = .ok t → 0 < t.amount) ∧
    (∀ (dateCol descCol debitCol creditCol : String)
       (header1 cells1 header2 cells2 : List String),
      (∀ name, lookupCol header1 cells1 name = lookupCol header2 cells2 name) →
      extractDebitCredit dateCol descCol debitCol creditCol header1 cells1 =
        extractDebitCredit dateCol descCol debitCol creditCol header2 cells2) ∧
    (∀ (fd : QuickAddForm) (q : ℚ) (t : SubmittedTxn),
      parseFloat fd.amount = .num q →
      handleSubmit fd = .submitted t →
      (fd.type = .expense → ∃ r, t.amount = .num r ∧ r < 0) ∧
      (fd.type = .income → ∃ r, t.amount = .num r ∧ 0 < r)) := by
  refine ⟨?_, ?_, ?_, ?_⟩
  · intro inst acct d ds raw t hok
    rw [normalizeCandidate] at hok
    cases hpd : parseDate d inst with
    | error e => simp [hpd] at hok
    | ok dd =>
      simp only [hpd] at hok
      cases hmp : magnitudeParts raw with
      | none => simp [hmp] at hok
      | some p =>
        obtain ⟨i, f, l⟩ := p
        simp only [hmp] at hok
        split at hok
        · exact absurd hok (by simp)
        · rename_i hz
          simp only [Bool.and_eq_true, decide_eq_true_eq, not_and] at hz
          simp only [Except.ok.injEq] at hok
          rw [← hok]
          show -magnitudeVal (i, f, l) < 0
          have hpos : 0 < magnitudeVal (i, f, l) := by
            rw [magnitudeVal]
            have h2 : (0 : ℚ) ≤ (f : ℚ) / (10 : ℚ) ^ l := by positivity
            rcases Nat.eq_zero_or_pos i with h0 | h0
            · have hf : f ≠ 0 := hz h0
              have h3 : (0 : ℚ) < (f : ℚ) / (10 : ℚ) ^ l :=
                div_pos (by exact_mod_cast Nat.pos_of_ne_zero hf) (by positivity)
              have h4 : ((i : ℕ) : ℚ) = 0 := by rw [h0]; simp
              show (0 : ℚ) < (i : ℚ) + (f : ℚ) / (10 : ℚ) ^ l
              rw [h4]
              linarith
            · have h3 : (1 : ℚ) ≤ (i : ℚ) := by exact_mod_cast h0
              show (0 : ℚ) < (i : ℚ) + (f : ℚ) / (10 : ℚ) ^ l
              linarith
          linarith
  · intro inst acct d ds raw t hok
    rw [normalizeCandidate] at hok
    cases hpd : parseDate d inst with
    | error e => simp [hpd] at hok
    | ok dd =>
      simp only [hpd] at hok
      cases hmp : magnitudeParts raw with
      | none => simp [hmp] at hok
      | some p =>
        obtain ⟨i, f, l⟩ := p
        simp only [hmp] at hok
        split at hok
        · exact absurd hok (by simp)
        · rename_i hz
          simp only [Bool.and_eq_true, decide_eq_true_eq, not_and] at hz
          simp only [Except.ok.injEq] at hok
          rw [← hok]
          show 0 < magnitudeVal (i, f, l)
          rw [magnitudeVal]
          have h2 : (0 : ℚ) ≤ (f : ℚ) / (10 : ℚ) ^ l := by positivity
          rcases Nat.eq_zero_or_pos i with h0 | h0
          · have hf : f ≠ 0 := hz h0
            have h3 : (0 : ℚ) < (f : ℚ) / (10 : ℚ) ^ l :=
              div_pos (by exact_mod_cast Nat.pos_of_ne_zero hf) (by positivity)
            have h4 : ((i : ℕ) : ℚ) = 0 := by rw [h0]; simp
            show (0 : ℚ) < (i : ℚ) + (f : ℚ) / (10 : ℚ) ^ l
            rw [h4]
            linarith
          · have h3 : (1 : ℚ) ≤ (i : ℚ) := by exact_mod_cast h0
            show (0 : ℚ) < (i : ℚ) + (f : ℚ) / (10 : ℚ) ^ l
            linarith
  · intro dateCol descCol debitCol creditCol header1 cells1 header2 cells2 h
    simp only [extractDebitCredit, h]
  · intro fd q t hq hsub
    rw [handleSubmit] at hsub
    split at hsub
    · exact absurd hsub (by simp)
    · split at hsub
      · exact absurd hsub (by simp)
      · rename_i hguard
        have hne : q ≠ 0 := by
          intro h0
          exact hguard (by simp [hq, jsEqZero, h0])
        injection hsub with h
        rw [← h]
        constructor
        · intro hty
          rw [hty]
          refine ⟨-|q|, ?_, ?_⟩
          · simp [hq, jsAbs, jsNeg]
          · simp [abs_pos.mpr hne]
        · intro hty
          rw [hty]
          refine ⟨|q|, ?_, ?_⟩
          · simp [hq, jsAbs]
          · exact abs_pos.mpr hne

/-- Witness for C2: the normalized transaction of a concrete debit row whose
cell writes the value in parentheses still persists a negative amount (the
value is forty-five dollars, written as the normalizer computes it). -/
theorem sign_convention_witness :
    -(((45 : ℕ) : ℚ) + ((0 : ℕ) : ℚ) / (10 : ℚ) ^ (2 : ℕ)) < 0 :=
  sign_convention.1 Institution.CIBC 1 "2025-08-01" "Refund" "(45.00)"
    ⟨⟨2025, 8, 1⟩, -(((45 : ℕ) : ℚ) + ((0 : ℕ) : ℚ) / (10 : ℚ) ^ (2 : ℕ)),
      "Refund", 1, Institution.CIBC⟩
    rfl

/-- C9: every upload that passes the client-side checks of the upload modals
reaches the error branch — the transaction API object defines no uploadPDF
method, so the call throws, the catch branch sets the error state, and no
upload report is shown through this path; only the separate fileAPI exposes
the statement-upload method. -/
theorem upload_components_error_path (f : JsFile)
    (hext : fileExtension f.name ∈ allowedExtensions)
    (hsize : f.size ≤ 10 * 1024 * 1024) :
    fileUploadModal_uploadFile f =
      UploadUIState.errorShown "Upload failed. Please try again." ∧
    pdfUpload_uploadFile f =
      UploadUIState.errorShown "Upload failed. Please try again." ∧
    ("uploadPDF" ∈ transactionAPIMethods ↔ False) ∧
    "uploadStatement" ∈ fileAPIMethods := by
  have hm : "uploadPDF" ∉ transactionAPIMethods := by decide
  refine ⟨?_, ?_, iff_false_intro hm, by decide⟩
  · rw [fileUploadModal_uploadFile, if_neg (not_not_intro hext),
      if_neg (by omega), if_neg hm]
  · rw [pdfUpload_uploadFile, if_neg hm]

/-- Witness for C9 at a concrete valid file. -/
theorem upload_components_error_path_witness :
    fileUploadModal_uploadFile ⟨"statement.pdf", 1024⟩ =
      UploadUIState.errorShown "Upload failed. Please try again." ∧
    pdfUpload_uploadFile ⟨"statement.pdf", 1024⟩ =
      UploadUIState.errorShown "Upload failed. Please try again." ∧
    ("uploadPDF" ∈ transactionAPIMethods ↔ False) ∧
    "uploadStatement" ∈ fileAPIMethods :=
  upload_components_error_path ⟨"statement.pdf", 1024⟩ (by decide) (by norm_num)

/-- C10: the quick-add validation lets a non-numeric amount through — for a
form whose trimmed description is non-empty and whose amount string is
non-empty but parses to not-a-number, the guard passes (not-a-number is not
strictly equal to zero) and the submitted transaction carries a not-a-number
amount for either transaction type. -/
theorem quickAdd_submits_nan (fd : QuickAddForm)
    (hdesc : strTrim fd.description ≠ "")
    (hamt : fd.amount ≠ "")
    (hnan : parseFloat fd.amount = JSNum.nan) :
    handleSubmit fd = SubmitResult.submitted
      ⟨strTrim fd.description, JSNum.nan, fd.date, fd.categoryId, fd.accountId⟩ := by
  rw [handleSubmit, if_neg hdesc, if_neg (by simp [hamt, hnan, jsEqZero])]
  cases htype : fd.type <;> simp [jsAbs, jsNeg, hnan]

/-- Witness for C10 at a concrete form with the amount string abc. -/
theorem quickAdd_submits_nan_witness :
    handleSubmit ⟨"Coffee", "abc", "2025-08-01", none, 1, TxnType.expense⟩ =
      SubmitResult.submitted ⟨strTrim "Coffee", JSNum.nan, "2025-08-01", none, 1⟩ :=
  quickAdd_submits_nan ⟨"Coffee", "abc", "2025-08-01", none, 1, TxnType.expense⟩
    (by decide) (by decide) (by decide)

end Budget
